import Mathlib

/-!
Verification of the typed key/value layer of the `kv` crate.

The repository's `src/` holds `lib.rs` (crate doc example and module list) and
`config.rs`.  The modules `types.rs`, `value.rs`, `bucket.rs`, `transaction.rs`
and `error.rs` are declared in `lib.rs` but their sources are absent, so the
codec, bucket, batch, iterator and transaction layer below is modelled from the
specification (sections 3, 4, 6 and 7), with the underlying storage engine
treated as the spec describes it: an ordered store of raw byte keys to raw byte
values.  `Config` is embedded directly from `config.rs`.
-/

set_option autoImplicit false

/-- Raw byte strings: keys and values of the underlying engine, modelled as
lists of naturals (every encoder below only emits bytes strictly under 256). -/
abbrev Bytes := List Nat

/-- Modelled from the spec: the error taxonomy of section 7 (`error.rs` is not
under `src/`).  `DecodeError` for codec failures, `EngineError` for storage
faults, `Conflict` and `AbortError` for transactions, `InvalidConfiguration`
for the config (de)serialization path of `config.rs`. -/
inductive KvError where
  | DecodeError
  | EngineError
  | Conflict
  | AbortError
  | InvalidConfiguration
deriving DecidableEq

/-- Modelled from the spec: the codec capability of section 4.1
(`types.rs` / `value.rs` are not under `src/`): `to_bytes` and `from_bytes`,
with decoding fallible. -/
structure Codec (α : Type) where
  enc : α → Bytes
  dec : Bytes → Except KvError α

/-- Modelled from the spec: the `Raw` codec — identity, bytes in, same bytes
out, decoding never fails. -/
def Raw : Codec Bytes :=
  ⟨fun bs => bs, fun bs => Except.ok bs⟩

/-- Big-endian fixed-width byte representation of a natural: `w` bytes, most
significant first; each byte is reduced mod 256 as a machine register would. -/
def beBytes : Nat → Nat → Bytes
  | 0, _ => []
  | w + 1, n => (n / 256 ^ w) % 256 :: beBytes w n

/-- Inverse of `beBytes`: big-endian byte fold. -/
def fromBeBytes (bs : Bytes) : Nat :=
  bs.foldl (fun acc b => acc * 256 + b) 0

/-- Modelled from the spec: the `Integer` codec of section 4.1 — a fixed-width
(width `w` bytes) big-endian encoding of unsigned integers, so that
byte-lexicographic order equals numeric order; decoding checks the width and
inverts the encoding. -/
def IntegerCodec (w : Nat) : Codec Nat :=
  ⟨beBytes w,
   fun bs =>
     if bs.length = w then Except.ok (fromBeBytes bs)
     else Except.error KvError.DecodeError⟩

/-- Byte-lexicographic strict order on byte strings: a strict prefix is
smaller, otherwise the first differing byte decides. -/
def lexLt : List Nat → List Nat → Bool
  | _, [] => false
  | [], _ :: _ => true
  | a :: as, b :: bs =>
    if a < b then true
    else if a = b then lexLt as bs
    else false

/-- Modelled from the spec (sections 1 and 6): the engine is an ordered store
of raw byte keys to raw byte values; embedded as an association list kept
sorted by `lexLt` on keys. -/
abbrev Store := List (Bytes × Bytes)

/-- Point lookup in the engine. -/
def storeGet : Store → Bytes → Option Bytes
  | [], _ => none
  | (k', v') :: rest, k => if k = k' then some v' else storeGet rest k

/-- Order-preserving insert (replacing an existing binding of the same key). -/
def storeInsert (k v : Bytes) : Store → Store
  | [] => [(k, v)]
  | (k', v') :: rest =>
    if lexLt k k' then (k, v) :: (k', v') :: rest
    else if k = k' then (k, v) :: rest
    else (k', v') :: storeInsert k v rest

/-- Delete every binding of `k`. -/
def storeRemove (k : Bytes) : Store → Store
  | [] => []
  | (k', v') :: rest =>
    if k = k' then storeRemove k rest else (k', v') :: storeRemove k rest

/-- The engine invariant: bindings sorted strictly ascending by key. -/
def storeSorted (s : Store) : Prop :=
  List.Pairwise (fun p q => lexLt p.1 q.1 = true) s

/-- `leadsWith pre bs` holds when `pre` is an initial segment of `bs`. -/
def leadsWith : List Nat → List Nat → Bool
  | [], _ => true
  | _ :: _, [] => false
  | a :: as, b :: bs => if a = b then leadsWith as bs else false

/-- Modelled from the spec (glossary): a bucket is a named subspace realized
as a key prefix `ns`; the stored key of a typed key `k` is `ns ++ enc k`. -/
def subKey {α : Type} (K : Codec α) (ns : Bytes) (k : α) : Bytes :=
  ns ++ K.enc k

/-- Modelled from the spec (section 4.2): `get` encodes the key, performs a
point lookup in the subspace, decodes the result if present; absence is
`Ok(None)`, not an error. -/
def bucketGet {α β : Type} (K : Codec α) (V : Codec β) (ns : Bytes)
    (s : Store) (k : α) : Except KvError (Option β) :=
  match storeGet s (subKey K ns k) with
  | none => Except.ok none
  | some bv => (V.dec bv).map some

/-- Modelled from the spec (section 4.2): `set` encodes key and value, writes
through to the engine, and returns the previous value (decoded) if one
existed.  Result: the returned prior value and the updated store. -/
def bucketSet {α β : Type} (K : Codec α) (V : Codec β) (ns : Bytes)
    (s : Store) (k : α) (v : β) : Except KvError (Option β) × Store :=
  (match storeGet s (subKey K ns k) with
   | none => Except.ok none
   | some bv => (V.dec bv).map some,
   storeInsert (subKey K ns k) (V.enc v) s)

/-- Modelled from the spec (section 4.2): `remove` deletes the encoded key and
returns the previous value (decoded) if one was present. -/
def bucketRemove {α β : Type} (K : Codec α) (V : Codec β) (ns : Bytes)
    (s : Store) (k : α) : Except KvError (Option β) × Store :=
  (match storeGet s (subKey K ns k) with
   | none => Except.ok none
   | some bv => (V.dec bv).map some,
   storeRemove (subKey K ns k) s)

/-- Modelled from the spec (section 4.4): `iter` is the ordered sequence of
raw bindings of the bucket's subspace, decoded lazily by the caller. -/
def bucketIter (ns : Bytes) (s : Store) : Store :=
  s.filter (fun p => leadsWith ns p.1)

/-- Modelled from the spec (section 4.3): a pending batch/transaction
operation at the engine level — set a raw key or remove it. -/
inductive StoreOp where
  | setOp (k v : Bytes)
  | delOp (k : Bytes)
deriving DecidableEq

/-- Apply one pending operation to the engine state. -/
def applyOp (s : Store) : StoreOp → Store
  | StoreOp.setOp k v => storeInsert k v s
  | StoreOp.delOp k => storeRemove k s

/-- Apply a sequence of pending operations in submission order. -/
def applyOps (s : Store) (ops : List StoreOp) : Store :=
  ops.foldl applyOp s

/-- Modelled from the spec (section 4.3): the engine's atomic-write primitive
applying a batch sequentially; `faultAt = some i` simulates an engine fault
right before the `i`-th operation, discarding all partial work. -/
def applyBatchGo : Store → List StoreOp → Option Nat → Except KvError Store
  | s, [], _ => Except.ok s
  | _, _ :: _, some 0 => Except.error KvError.EngineError
  | s, op :: rest, some (i + 1) => applyBatchGo (applyOp s op) rest (some i)
  | s, op :: rest, none => applyBatchGo (applyOp s op) rest none

/-- Modelled from the spec (section 4.2): `Bucket::apply` sends the whole
batch to the engine's atomic-write primitive; on success the new state is
visible, on an engine fault the caller still sees the original state. -/
def bucketApply (s : Store) (ops : List StoreOp) (faultAt : Option Nat) :
    Store × Except KvError Unit :=
  match applyBatchGo s ops faultAt with
  | Except.ok s' => (s', Except.ok ())
  | Except.error e => (s, Except.error e)

/-- Modelled from the spec (sections 4.5 and 9): what a transaction body
reports — commit with its buffered writes (possibly spanning several bucket
subspaces via their key prefixes), or a voluntary abort. -/
inductive BodyResult where
  | committedBody (ops : List StoreOp)
  | abortedBody
deriving DecidableEq

/-- Outcome of driving a transaction to completion. -/
inductive TxResult where
  | committedTx
  | abortedTx
deriving DecidableEq

/-- One attempt of the transaction body against the current state: commit
applies every buffered write atomically, abort applies none. -/
def runTxnOnce (s : Store) (body : Store → BodyResult) : Store × TxResult :=
  match body s with
  | BodyResult.committedBody ops => (applyOps s ops, TxResult.committedTx)
  | BodyResult.abortedBody => (s, TxResult.abortedTx)

/-- Modelled from the spec (section 4.5): the engine's driving loop.  `n`
counts injected conflicts: each conflict discards the attempt's buffered
writes (nothing is applied) and re-executes the body from the start; an abort
stops the loop at once. -/
def runTxn : Nat → Store → (Store → BodyResult) → Store × TxResult
  | 0, s, body => runTxnOnce s body
  | n + 1, s, body =>
    match body s with
    | BodyResult.abortedBody => (s, TxResult.abortedTx)
    | BodyResult.committedBody _ => runTxn n s body

/-- The structured type of the crate doc example in `lib.rs` (`SomeType
{ a: i32, b: i32 }`), the representative payload for the `Json` codec. -/
structure SomeType where
  a : Int
  b : Int
deriving DecidableEq

/-- ASCII decimal digit test on a byte. -/
def isDigitByte (c : Nat) : Bool :=
  decide (48 ≤ c ∧ c ≤ 57)

/-- Decimal digit characters of `n`, least significant first; fuel-recursive
so that it reduces definitionally (`renderNat` supplies enough fuel). -/
def renderNatAux : Nat → Nat → List Nat
  | 0, _ => []
  | fuel + 1, n =>
    if n = 0 then [] else (48 + n % 10) :: renderNatAux fuel (n / 10)

/-- Minimal decimal rendering of a natural, as serde_json prints it: no sign,
no leading zeros, `0` printed as `"0"`. -/
def renderNat (n : Nat) : List Nat :=
  if n = 0 then [48] else (renderNatAux n n).reverse

/-- Decimal rendering of an integer: a leading `-` (byte 45) for negatives. -/
def renderInt (z : Int) : List Nat :=
  if z < 0 then 45 :: renderNat z.natAbs else renderNat z.toNat

/-- Split a maximal run of decimal digit bytes off the front. -/
def takeDigits : List Nat → List Nat × List Nat
  | [] => ([], [])
  | c :: cs =>
    if isDigitByte c then
      ((takeDigits cs).1.cons c, (takeDigits cs).2)
    else ([], c :: cs)

/-- Value of a most-significant-first digit-byte run. -/
def digitsVal (ds : List Nat) : Nat :=
  ds.foldl (fun acc c => acc * 10 + (c - 48)) 0

/-- Parse a decimal natural; fails when no digit is present. -/
def parseNat (bs : List Nat) : Option (Nat × List Nat) :=
  match takeDigits bs with
  | ([], _) => none
  | (d :: ds, rest) => some (digitsVal (d :: ds), rest)

/-- Parse a decimal integer (optional leading `-`). -/
def parseInt (bs : List Nat) : Option (Int × List Nat) :=
  match bs with
  | [] => none
  | c :: rest =>
    if c = 45 then (parseNat rest).map (fun p => (-(p.1 : Int), p.2))
    else (parseNat (c :: rest)).map (fun p => ((p.1 : Int), p.2))

/-- The serde_json framing of `SomeType` up to its first field value:
left brace, quote, `a`, quote, colon. -/
def litA : List Nat := [123, 34, 97, 34, 58]

/-- The serde_json framing between the two field values: comma, quote, `b`,
quote, colon. -/
def litB : List Nat := [44, 34, 98, 34, 58]

/-- Consume an expected literal byte run off the front. -/
def dropLit : List Nat → List Nat → Option (List Nat)
  | [], bs => some bs
  | _ :: _, [] => none
  | l :: ls, b :: bs => if l = b then dropLit ls bs else none

/-- Modelled from the spec (section 4.1) and the crate doc example: the
serde_json byte serialization of `SomeType`, e.g. `{"a":1,"b":-2}` (byte 125
is the closing brace). -/
def jsonEncode (v : SomeType) : Bytes :=
  litA ++ (renderInt v.a ++ (litB ++ (renderInt v.b ++ [125])))

/-- Modelled from the spec (section 4.1): parsing bytes as the serde_json
form of `SomeType`; any malformed, truncated or schema-incompatible input
yields `none`. -/
def jsonDecode (bs : Bytes) : Option SomeType :=
  match dropLit litA bs with
  | none => none
  | some r1 =>
    match parseInt r1 with
    | none => none
    | some (av, r2) =>
      match dropLit litB r2 with
      | none => none
      | some r3 =>
        match parseInt r3 with
        | none => none
        | some (bv, r4) =>
          match r4 with
          | [125] => some ⟨av, bv⟩
          | _ => none

/-- Modelled from the spec (section 4.1): the `Json<SomeType>` codec; decode
failure is a recoverable `DecodeError`, never a crash. -/
def JsonCodec : Codec SomeType :=
  ⟨jsonEncode,
   fun bs =>
     match jsonDecode bs with
     | some v => Except.ok v
     | none => Except.error KvError.DecodeError⟩

/-- A TOML integer as the `toml` crate holds it: `toml::Value::Integer` is an
`i64`, so the payload is an `Int` carrying the i64 range bound. -/
def TomlInt : Type := { z : Int // -(2 ^ 63) ≤ z ∧ z < 2 ^ 63 }

instance : DecidableEq TomlInt := fun a b =>
  decidable_of_iff (a.val = b.val) Subtype.ext_iff.symm

/-- A TOML scalar as produced/consumed for `Config` by the external `toml`
crate (modelled at the document level: the crate's string rendering and
parsing of a well-formed scalar document are its own round-trip guarantee).
Integers are i64-bounded (`TomlInt`): a `u64` above `i64::MAX` has no TOML
representation in the crate. -/
inductive TomlValue where
  | vStr (v : String)
  | vBool (v : Bool)
  | vInt (v : TomlInt)
deriving DecidableEq

/-- A flat TOML document: ordered key/value pairs. -/
abbrev TomlDoc := List (String × TomlValue)

/-- First binding of `key` in a document. -/
def tomlLookup : TomlDoc → String → Option TomlValue
  | [], _ => none
  | (k', v') :: rest, k => if k = k' then some v' else tomlLookup rest k

/-- `Config` from `config.rs`: the database path (a valid UTF-8 path,
modelled as a `String`), three booleans and two optional `u64` fields
(modelled as `Option Nat`). -/
structure Config where
  path : String
  read_only : Bool
  temporary : Bool
  use_compression : Bool
  flush_every_ms : Option Nat
  cache_capacity : Option Nat
deriving DecidableEq

/-- Serialize one `#[serde(default)] Option<u64>` field the way serde and the
`toml` crate do: `None` is omitted from the table; `Some n` becomes a TOML
integer when `n` fits in an `i64`, and is a serialization failure (surfaced
by `save_to` as `Error::InvalidConfiguration`) when `n > i64::MAX`. -/
def tomlSerOptNat (key : String) (o : Option Nat) : Except KvError TomlDoc :=
  match o with
  | none => Except.ok []
  | some n =>
    if h : n < 2 ^ 63 then
      Except.ok [(key, TomlValue.vInt ⟨(n : Int), by constructor <;> omega⟩)]
    else Except.error KvError.InvalidConfiguration

/-- True when an `Option<u64>` field is serializable by the `toml` crate:
absent, or a value within the i64 range. -/
def fitsTomlInt (o : Option Nat) : Bool :=
  match o with
  | none => true
  | some n => decide (n < 2 ^ 63)

/-- `Config::save_to` from `config.rs`: serde-serializes the struct to TOML
in field order via `toml::to_string`; `None` optional fields are omitted, and
a `toml` serialization failure (a `u64` above `i64::MAX`) is returned as
`Error::InvalidConfiguration`. -/
def Config.save_to (c : Config) : Except KvError TomlDoc := do
  let fl ← tomlSerOptNat "flush_every_ms" c.flush_every_ms
  let cc ← tomlSerOptNat "cache_capacity" c.cache_capacity
  Except.ok
    ([("path", TomlValue.vStr c.path),
      ("read_only", TomlValue.vBool c.read_only),
      ("temporary", TomlValue.vBool c.temporary),
      ("use_compression", TomlValue.vBool c.use_compression)]
     ++ fl ++ cc)

/-- Read a `#[serde(default)] bool` field: missing means `false`. -/
def tomlBoolField (d : TomlDoc) (key : String) : Except KvError Bool :=
  match tomlLookup d key with
  | none => Except.ok false
  | some (TomlValue.vBool x) => Except.ok x
  | some _ => Except.error KvError.InvalidConfiguration

/-- Read a `#[serde(default)] Option<u64>` field: missing means `None`; a
TOML integer deserializes to `u64` only when non-negative (serde rejects a
negative `i64` for a `u64` field). -/
def tomlOptNatField (d : TomlDoc) (key : String) : Except KvError (Option Nat) :=
  match tomlLookup d key with
  | none => Except.ok none
  | some (TomlValue.vInt x) =>
    if 0 ≤ x.val then Except.ok (some x.val.toNat)
    else Except.error KvError.InvalidConfiguration
  | some _ => Except.error KvError.InvalidConfiguration

/-- `Config::load_from` from `config.rs`: serde-deserializes the TOML
document; a missing or ill-typed `path` (the only field without a serde
default) is `Error::InvalidConfiguration`. -/
def Config.load_from (d : TomlDoc) : Except KvError Config :=
  match tomlLookup d "path" with
  | some (TomlValue.vStr p) => do
    let ro ← tomlBoolField d "read_only"
    let tmp ← tomlBoolField d "temporary"
    let uc ← tomlBoolField d "use_compression"
    let fl ← tomlOptNatField d "flush_every_ms"
    let cc ← tomlOptNatField d "cache_capacity"
    Except.ok ⟨p, ro, tmp, uc, fl, cc⟩
  | _ => Except.error KvError.InvalidConfiguration

/-- `Config::read_only` from `config.rs` (primed: the field accessor already
takes the source name in Lean): sets only the `read_only` field. -/
def Config.read_only' (c : Config) (readonly : Bool) : Config :=
  { c with read_only := readonly }

/-- `Config::use_compression` from `config.rs` (primed as above). -/
def Config.use_compression' (c : Config) (uc : Bool) : Config :=
  { c with use_compression := uc }

/-- `Config::temporary` from `config.rs` (primed as above). -/
def Config.temporary' (c : Config) (tmp : Bool) : Config :=
  { c with temporary := tmp }

/-- `Config::flush_every_ms` from `config.rs` (primed as above): wraps the
argument in `Some`. -/
def Config.flush_every_ms' (c : Config) (ms : Nat) : Config :=
  { c with flush_every_ms := some ms }

/-- `Config::cache_capacity` from `config.rs` (primed as above): wraps the
argument in `Some`. -/
def Config.cache_capacity' (c : Config) (ms : Nat) : Config :=
  { c with cache_capacity := some ms }

/-- True when the list does not start with a decimal digit byte (so a decimal
parse stops exactly there). -/
def headNotDigit : List Nat → Bool
  | [] => true
  | c :: _ => !(isDigitByte c)

/-- Concrete transaction payload: one write in each of two bucket subspaces
(prefixes `[0]` and `[1]`), as in the spec's two-bucket atomicity scenario. -/
def txDemoOps : List StoreOp :=
  [StoreOp.setOp [0, 7] [1], StoreOp.setOp [1, 8] [2]]

/-- A transaction body that commits the two-bucket payload. -/
def txDemoCommit : Store → BodyResult :=
  fun _ => BodyResult.committedBody txDemoOps

/-- A transaction body that aborts voluntarily. -/
def txDemoAbort : Store → BodyResult :=
  fun _ => BodyResult.abortedBody

/-- The bucket contents of the spec's iterator-ordering scenario: integer keys
inserted in the order 3, 1, 2 through an `Integer`-keyed bucket. -/
def c6Store : Store :=
  (bucketSet (IntegerCodec 8) Raw []
    ((bucketSet (IntegerCodec 8) Raw []
      ((bucketSet (IntegerCodec 8) Raw [] [] 3 [120]).2) 1 [120]).2) 2 [120]).2

/-! ### Lemmas: byte-lexicographic order -/

theorem lexLt_trans : ∀ a b c : List Nat,
    lexLt a b = true → lexLt b c = true → lexLt a c = true
  | _, [], _, hab, _ => by simp [lexLt] at hab
  | _ :: _, _ :: _, [], _, hbc => by simp [lexLt] at hbc
  | [], _ :: _, [], _, hbc => by simp [lexLt] at hbc
  | [], _ :: _, _ :: _, _, _ => by simp [lexLt]
  | x :: xs, y :: ys, z :: zs, hab, hbc => by
    simp only [lexLt] at hab hbc ⊢
    rcases Nat.lt_trichotomy x y with h1 | h1 | h1
    · rcases Nat.lt_trichotomy y z with h2 | h2 | h2
      · simp [Nat.lt_trans h1 h2]
      · subst h2; simp [h1]
      · exfalso
        have : ¬ y < z := Nat.lt_asymm h2
        simp [this, Nat.ne_of_gt h2] at hbc
    · subst h1
      rcases Nat.lt_trichotomy x z with h2 | h2 | h2
      · simp [h2]
      · subst h2
        simp [Nat.lt_irrefl] at hab hbc ⊢
        exact lexLt_trans xs ys zs hab hbc
      · exfalso
        have : ¬ x < z := Nat.lt_asymm h2
        simp [this, Nat.ne_of_gt h2] at hbc
    · exfalso
      have : ¬ x < y := Nat.lt_asymm h1
      simp [this, Nat.ne_of_gt h1] at hab

theorem lexLt_flip : ∀ a b : List Nat,
    lexLt a b = false → a ≠ b → lexLt b a = true
  | [], [], _, hne => absurd rfl hne
  | [], _ :: _, hab, _ => by simp [lexLt] at hab
  | _ :: _, [], _, _ => by simp [lexLt]
  | x :: xs, y :: ys, hab, hne => by
    simp only [lexLt] at hab ⊢
    rcases Nat.lt_trichotomy x y with h1 | h1 | h1
    · simp [h1] at hab
    · subst h1
      simp [Nat.lt_irrefl] at hab ⊢
      have hne' : xs ≠ ys := by
        intro h; exact hne (by rw [h])
      exact lexLt_flip xs ys hab hne'
    · simp [h1]

/-! ### Lemmas: the big-endian integer encoding -/

theorem beBytes_length (w : Nat) : ∀ n : Nat, (beBytes w n).length = w := by
  induction w with
  | zero => intro n; rfl
  | succ w ih => intro n; simp [beBytes, ih]

theorem foldl_beBytes (w : Nat) : ∀ n acc : Nat,
    List.foldl (fun acc b => acc * 256 + b) acc (beBytes w n) =
      acc * 256 ^ w + n % 256 ^ w := by
  induction w with
  | zero => intro n acc; simp [beBytes, Nat.mod_one]
  | succ w ih =>
    intro n acc
    simp only [beBytes, List.foldl_cons]
    rw [ih]
    rw [Nat.mod_pow_succ]
    ring

theorem fromBeBytes_beBytes {w n : Nat} (h : n < 256 ^ w) :
    fromBeBytes (beBytes w n) = n := by
  unfold fromBeBytes
  rw [foldl_beBytes, Nat.zero_mul, Nat.zero_add, Nat.mod_eq_of_lt h]

theorem beBytes_mod (w : Nat) : ∀ n : Nat, beBytes w (n % 256 ^ w) = beBytes w n := by
  induction w with
  | zero => intro n; rfl
  | succ w ih =>
    intro n
    have h1 : n % 256 ^ (w + 1) % 256 ^ w = n % 256 ^ w :=
      Nat.mod_mod_of_dvd n (pow_dvd_pow 256 (Nat.le_succ w))
    have h2 : n % 256 ^ (w + 1) / 256 ^ w = n / 256 ^ w % 256 := by
      rw [Nat.pow_succ, Nat.mod_mul_right_div_self]
    simp only [beBytes]
    rw [h2, Nat.mod_mod_of_dvd _ (dvd_refl 256)]
    rw [← ih (n % 256 ^ (w + 1)), h1, ih n]

theorem beBytes_lexLt (w : Nat) : ∀ a b : Nat, a < b → b < 256 ^ w →
    lexLt (beBytes w a) (beBytes w b) = true := by
  induction w with
  | zero =>
    intro a b hab hb
    exact absurd (Nat.lt_trans hab hb) (by omega)
  | succ w ih =>
    intro a b hab hb
    have hpos : 0 < 256 ^ w := Nat.pos_pow_of_pos w (by omega)
    have hbd : b / 256 ^ w < 256 := by
      apply Nat.div_lt_of_lt_mul
      calc b < 256 ^ (w + 1) := hb
        _ = 256 ^ w * 256 := Nat.pow_succ ..
    have had : a / 256 ^ w < 256 := by
      apply Nat.div_lt_of_lt_mul
      calc a < b := hab
        _ < 256 ^ (w + 1) := hb
        _ = 256 ^ w * 256 := Nat.pow_succ ..
    simp only [beBytes, lexLt, Nat.mod_eq_of_lt had, Nat.mod_eq_of_lt hbd]
    rcases Nat.lt_trichotomy (a / 256 ^ w) (b / 256 ^ w) with h1 | h1 | h1
    · simp [h1]
    · have hma := Nat.div_add_mod a (256 ^ w)
      have hmb := Nat.div_add_mod b (256 ^ w)
      have hmalt : a % 256 ^ w < 256 ^ w := Nat.mod_lt a hpos
      have hmblt : b % 256 ^ w < 256 ^ w := Nat.mod_lt b hpos
      have hprod : 256 ^ w * (a / 256 ^ w) = 256 ^ w * (b / 256 ^ w) := by rw [h1]
      have hmm : a % 256 ^ w < b % 256 ^ w := by omega
      have htail : lexLt (beBytes w a) (beBytes w b) = true := by
        rw [← beBytes_mod w a, ← beBytes_mod w b]
        exact ih (a % 256 ^ w) (b % 256 ^ w) hmm hmblt
      simp [h1, htail]
    · exfalso
      have : a / 256 ^ w ≤ b / 256 ^ w := Nat.div_le_div_right (Nat.le_of_lt hab)
      omega

/-! ### Lemmas: the ordered engine store -/

theorem storeGet_storeInsert_self (k v : Bytes) :
    ∀ s : Store, storeGet (storeInsert k v s) k = some v := by
  intro s
  induction s with
  | nil => simp [storeInsert, storeGet]
  | cons hd rest ih =>
    obtain ⟨k', v'⟩ := hd
    simp only [storeInsert]
    by_cases h1 : lexLt k k' = true
    · rw [if_pos h1]; simp [storeGet]
    · by_cases h2 : k = k'
      · subst h2
        rw [if_neg h1, if_pos rfl]
        simp [storeGet]
      · rw [if_neg h1, if_neg h2]
        simp [storeGet, h2, ih]

theorem storeGet_storeRemove_self (k : Bytes) :
    ∀ s : Store, storeGet (storeRemove k s) k = none := by
  intro s
  induction s with
  | nil => simp [storeRemove, storeGet]
  | cons hd rest ih =>
    obtain ⟨k', v'⟩ := hd
    simp only [storeRemove]
    by_cases h : k = k'
    · subst h; rw [if_pos rfl]; exact ih
    · rw [if_neg h]; simp [storeGet, h, ih]

theorem mem_storeInsert {k v : Bytes} :
    ∀ {s : Store} {p : Bytes × Bytes}, p ∈ storeInsert k v s → p = (k, v) ∨ p ∈ s := by
  intro s
  induction s with
  | nil => intro p hp; simp [storeInsert] at hp; exact Or.inl hp
  | cons hd rest ih =>
    intro p hp
    obtain ⟨k', v'⟩ := hd
    simp only [storeInsert] at hp
    by_cases h1 : lexLt k k' = true
    · rw [if_pos h1] at hp
      simp only [List.mem_cons] at hp
      rcases hp with h | h | h
      · exact Or.inl h
      · exact Or.inr (by simp [h])
      · exact Or.inr (by simp [h])
    · by_cases h2 : k = k'
      · subst h2
        rw [if_neg h1, if_pos rfl] at hp
        simp only [List.mem_cons] at hp
        rcases hp with h | h
        · exact Or.inl h
        · exact Or.inr (by simp [h])
      · rw [if_neg h1, if_neg h2] at hp
        simp only [List.mem_cons] at hp
        rcases hp with h | h
        · exact Or.inr (by simp [h])
        · rcases ih h with h' | h'
          · exact Or.inl h'
          · exact Or.inr (by simp [h'])

theorem storeRemove_sublist (k : Bytes) :
    ∀ s : Store, List.Sublist (storeRemove k s) s := by
  intro s
  induction s with
  | nil => simp [storeRemove]
  | cons hd rest ih =>
    obtain ⟨k', v'⟩ := hd
    simp only [storeRemove]
    by_cases h : k = k'
    · rw [if_pos h]
      exact List.Sublist.cons _ ih
    · rw [if_neg h]
      exact List.Sublist.cons₂ _ ih

theorem storeRemove_sorted {k : Bytes} {s : Store} (hs : storeSorted s) :
    storeSorted (storeRemove k s) :=
  List.Pairwise.sublist (storeRemove_sublist k s) hs

theorem storeInsert_sorted {k v : Bytes} :
    ∀ {s : Store}, storeSorted s → storeSorted (storeInsert k v s) := by
  intro s
  induction s with
  | nil => intro _; simp [storeInsert, storeSorted]
  | cons hd rest ih =>
    intro hs
    obtain ⟨k', v'⟩ := hd
    have hs' : (∀ q ∈ rest, lexLt k' q.1 = true) ∧ storeSorted rest := by
      simpa [storeSorted, List.pairwise_cons] using hs
    obtain ⟨hhd, hrest⟩ := hs'
    simp only [storeInsert]
    by_cases h1 : lexLt k k' = true
    · rw [if_pos h1]
      simp only [storeSorted, List.pairwise_cons]
      refine ⟨?_, ?_, ?_⟩
      · intro q hq
        simp only [List.mem_cons] at hq
        rcases hq with h | h
        · rw [h]; exact h1
        · exact lexLt_trans k k' q.1 h1 (hhd q h)
      · exact hhd
      · exact hrest
    · by_cases h2 : k = k'
      · subst h2
        rw [if_neg h1, if_pos rfl]
        simp only [storeSorted, List.pairwise_cons]
        exact ⟨hhd, hrest⟩
      · rw [if_neg h1, if_neg h2]
        simp only [storeSorted, List.pairwise_cons]
        refine ⟨?_, ?_⟩
        · intro q hq
          rcases mem_storeInsert hq with h | h
          · rw [h]
            exact lexLt_flip k k' (by simpa using h1) h2
          · exact hhd q h
        · exact ih hrest

/-! ### Lemmas: decimal rendering and parsing (the Json codec) -/

theorem renderNatAux_digits : ∀ fuel n : Nat, n ≤ fuel →
    ∀ c ∈ renderNatAux fuel n, isDigitByte c = true := by
  intro fuel
  induction fuel with
  | zero => intro n hn c hc; simp [renderNatAux] at hc
  | succ fuel ih =>
    intro n hn c hc
    simp only [renderNatAux] at hc
    by_cases h : n = 0
    · rw [if_pos h] at hc; simp at hc
    · rw [if_neg h] at hc
      simp only [List.mem_cons] at hc
      rcases hc with h' | h'
      · subst h'
        have : n % 10 < 10 := Nat.mod_lt n (by omega)
        simp [isDigitByte]; omega
      · have hdiv : n / 10 ≤ fuel := by
          have : n / 10 < n := Nat.div_lt_self (Nat.pos_of_ne_zero h) (by omega)
          omega
        exact ih (n / 10) hdiv c h'

theorem foldr_renderNatAux : ∀ fuel n : Nat, n ≤ fuel →
    List.foldr (fun c acc => acc * 10 + (c - 48)) 0 (renderNatAux fuel n) = n := by
  intro fuel
  induction fuel with
  | zero =>
    intro n hn
    have : n = 0 := by omega
    subst this; rfl
  | succ fuel ih =>
    intro n hn
    simp only [renderNatAux]
    by_cases h : n = 0
    · rw [if_pos h]; simp [h]
    · rw [if_neg h]
      simp only [List.foldr_cons]
      have hdiv : n / 10 ≤ fuel := by
        have : n / 10 < n := Nat.div_lt_self (Nat.pos_of_ne_zero h) (by omega)
        omega
      rw [ih (n / 10) hdiv]
      omega

theorem renderNat_digits (n : Nat) : ∀ c ∈ renderNat n, isDigitByte c = true := by
  unfold renderNat
  by_cases h : n = 0
  · rw [if_pos h]
    intro c hc
    simp at hc
    subst hc
    rfl
  · rw [if_neg h]
    intro c hc
    rw [List.mem_reverse] at hc
    exact renderNatAux_digits n n (Nat.le_refl n) c hc

theorem renderNat_ne_nil (n : Nat) : renderNat n ≠ [] := by
  unfold renderNat
  by_cases h : n = 0
  · rw [if_pos h]; simp
  · rw [if_neg h]
    simp only [ne_eq, List.reverse_eq_nil_iff]
    cases hn : n with
    | zero => exact absurd hn h
    | succ m =>
      simp [renderNatAux, hn]

theorem digitsVal_renderNat (n : Nat) : digitsVal (renderNat n) = n := by
  unfold digitsVal renderNat
  by_cases h : n = 0
  · rw [if_pos h]; simp [h]
  · rw [if_neg h]
    rw [List.foldl_reverse]
    exact foldr_renderNatAux n n (Nat.le_refl n)

theorem takeDigits_append : ∀ ds rest : List Nat, (∀ c ∈ ds, isDigitByte c = true) →
    headNotDigit rest = true → takeDigits (ds ++ rest) = (ds, rest) := by
  intro ds
  induction ds with
  | nil =>
    intro rest _ hrest
    cases rest with
    | nil => rfl
    | cons c cs =>
      simp only [headNotDigit, Bool.not_eq_true'] at hrest
      simp [takeDigits, hrest]
  | cons d ds ih =>
    intro rest hds hrest
    simp only [List.cons_append, takeDigits, List.append_eq]
    have hd : isDigitByte d = true := hds d (by simp)
    rw [if_pos hd, ih rest (fun c hc => hds c (by simp [hc])) hrest]

theorem parseNat_renderNat (n : Nat) (rest : List Nat)
    (h : headNotDigit rest = true) : parseNat (renderNat n ++ rest) = some (n, rest) := by
  unfold parseNat
  rw [takeDigits_append (renderNat n) rest (renderNat_digits n) h]
  cases hrn : renderNat n with
  | nil => exact absurd hrn (renderNat_ne_nil n)
  | cons d ds =>
    simp only
    rw [← hrn, digitsVal_renderNat]

theorem parseInt_dash (l : List Nat) :
    parseInt (45 :: l) = (parseNat l).map (fun p => (-(p.1 : Int), p.2)) := by
  simp [parseInt]

theorem parseInt_of_head_ne (c : Nat) (l : List Nat) (hc : ¬ c = 45) :
    parseInt (c :: l) = (parseNat (c :: l)).map (fun p => ((p.1 : Int), p.2)) := by
  simp [parseInt, hc]

theorem parseInt_renderInt (z : Int) (rest : List Nat)
    (h : headNotDigit rest = true) : parseInt (renderInt z ++ rest) = some (z, rest) := by
  unfold renderInt
  by_cases hz : z < 0
  · rw [if_pos hz]
    have hrw : (45 :: renderNat z.natAbs) ++ rest = 45 :: (renderNat z.natAbs ++ rest) := rfl
    rw [hrw, parseInt_dash, parseNat_renderNat _ rest h]
    simp only [Option.map_some']
    have hna : (-(z.natAbs : Int)) = z := by omega
    rw [hna]
  · rw [if_neg hz]
    cases hrn : renderNat z.toNat with
    | nil => exact absurd hrn (renderNat_ne_nil _)
    | cons d ds =>
      have hd : isDigitByte d = true := renderNat_digits z.toNat d (by rw [hrn]; simp)
      have hd45 : ¬ d = 45 := by
        simp only [isDigitByte, decide_eq_true_eq] at hd
        omega
      rw [List.cons_append, parseInt_of_head_ne d _ hd45]
      have hrw : (d : Nat) :: (ds ++ rest) = renderNat z.toNat ++ rest := by
        rw [hrn]; rfl
      rw [hrw, parseNat_renderNat _ rest h]
      simp only [Option.map_some']
      have hnn : ((z.toNat : Nat) : Int) = z := Int.toNat_of_nonneg (by omega)
      rw [hnn]

theorem dropLit_append : ∀ l rest : List Nat, dropLit l (l ++ rest) = some rest := by
  intro l
  induction l with
  | nil => intro rest; rfl
  | cons c cs ih => intro rest; simp [dropLit, ih]

theorem jsonDecode_jsonEncode (v : SomeType) : jsonDecode (jsonEncode v) = some v := by
  obtain ⟨a, b⟩ := v
  unfold jsonEncode jsonDecode
  rw [dropLit_append]
  simp only
  rw [parseInt_renderInt a _ (by rfl)]
  simp only
  rw [dropLit_append]
  simp only
  rw [parseInt_renderInt b _ (by rfl)]

/-! ### Lemmas: batch application and the transaction loop -/

theorem applyBatchGo_none : ∀ (ops : List StoreOp) (s : Store),
    applyBatchGo s ops none = Except.ok (applyOps s ops) := by
  intro ops
  induction ops with
  | nil => intro s; rfl
  | cons op rest ih =>
    intro s
    simp only [applyBatchGo, applyOps, List.foldl_cons]
    exact ih (applyOp s op)

theorem applyBatchGo_fault : ∀ (ops : List StoreOp) (s : Store) (i : Nat),
    i < ops.length →
    applyBatchGo s ops (some i) = Except.error KvError.EngineError := by
  intro ops
  induction ops with
  | nil => intro s i hi; simp at hi
  | cons op rest ih =>
    intro s i hi
    cases i with
    | zero => rfl
    | succ j =>
      simp only [applyBatchGo]
      exact ih (applyOp s op) j (by simpa using hi)

theorem runTxn_eq : ∀ (n : Nat) (s : Store) (body : Store → BodyResult),
    runTxn n s body = runTxnOnce s body := by
  intro n
  induction n with
  | zero => intro s body; rfl
  | succ m ih =>
    intro s body
    simp only [runTxn]
    cases hb : body s with
    | committedBody ops => rw [ih]
    | abortedBody => simp [runTxnOnce, hb]

/-! ### Claim theorems -/

/-- C1: for every supported codec (Raw, Integer, Json) and every value of its
type, decoding the bytes produced by encoding the value returns the value:
decode(encode(v)) = v (for Integer, for every value representable in the
codec's fixed width). -/
theorem C1_codec_roundtrip :
    (∀ bs : Bytes, Raw.dec (Raw.enc bs) = Except.ok bs)
    ∧ (∀ w n : Nat, n < 256 ^ w →
        (IntegerCodec w).dec ((IntegerCodec w).enc n) = Except.ok n)
    ∧ (∀ v : SomeType, JsonCodec.dec (JsonCodec.enc v) = Except.ok v) := by
  refine ⟨fun bs => rfl, ?_, ?_⟩
  · intro w n hn
    show (if (beBytes w n).length = w then Except.ok (fromBeBytes (beBytes w n))
      else Except.error KvError.DecodeError) = Except.ok n
    rw [if_pos (beBytes_length w n), fromBeBytes_beBytes hn]
  · intro v
    show (match jsonDecode (jsonEncode v) with
      | some x => Except.ok x
      | none => Except.error KvError.DecodeError) = Except.ok v
    rw [jsonDecode_jsonEncode]

/-- C1 witness: the round trip evaluated at concrete inputs for each codec. -/
theorem C1_codec_roundtrip_witness :
    Raw.dec (Raw.enc [1, 2, 3]) = Except.ok [1, 2, 3]
    ∧ (IntegerCodec 2).dec ((IntegerCodec 2).enc 300) = Except.ok 300
    ∧ JsonCodec.dec (JsonCodec.enc ⟨-5, 12⟩) = Except.ok ⟨-5, 12⟩ :=
  ⟨C1_codec_roundtrip.1 [1, 2, 3],
   C1_codec_roundtrip.2.1 2 300 (by decide),
   C1_codec_roundtrip.2.2 ⟨-5, 12⟩⟩

/-- C2: for every pair of same-width integers a < b, the Integer codec's
encodings satisfy encode(a) < encode(b) in byte-lexicographic order. -/
theorem C2_integer_order (w a b : Nat) (hab : a < b) (hb : b < 256 ^ w) :
    lexLt ((IntegerCodec w).enc a) ((IntegerCodec w).enc b) = true :=
  beBytes_lexLt w a b hab hb

/-- C2 witness: order preservation at width 2 for 1 < 300. -/
theorem C2_integer_order_witness :
    lexLt ((IntegerCodec 2).enc 1) ((IntegerCodec 2).enc 300) = true :=
  C2_integer_order 2 1 300 (by decide) (by decide)

theorem tomlSerOptNat_some (key : String) (n : Nat) (hn : n < 2 ^ 63) :
    tomlSerOptNat key (some n)
      = Except.ok [(key, TomlValue.vInt ⟨(n : Int), by constructor <;> omega⟩)] := by
  simp only [tomlSerOptNat]
  rw [dif_pos hn]

/-- C9 counterexample: at a Config whose flush_every_ms is Some(2^63),
one above i64::MAX, save_to fails with InvalidConfiguration (the toml crate
cannot represent the value), so serialize-then-parse does not return Ok of
the original Config. -/
theorem C9_config_counterexample :
    Config.save_to ⟨"/tmp/rust-kv", false, false, false, some (2 ^ 63), none⟩
      = Except.error KvError.InvalidConfiguration
    ∧ (Config.save_to ⟨"/tmp/rust-kv", false, false, false, some (2 ^ 63), none⟩).bind
        Config.load_from
      ≠ Except.ok ⟨"/tmp/rust-kv", false, false, false, some (2 ^ 63), none⟩ := by
  refine ⟨rfl, ?_⟩
  intro h
  exact Except.noConfusion h

/-- C9 (amended): for every Config whose path is a valid UTF-8 string and
whose flush_every_ms and cache_capacity, when Some(n), hold n within the
toml crate's i64 integer range, serializing with save_to and then parsing
the produced document with load_from returns Ok of a Config equal to the
original (all six fields, including the None/Some state of flush_every_ms
and cache_capacity, are recovered). -/
theorem C9_config_roundtrip (c : Config)
    (hf : fitsTomlInt c.flush_every_ms = true)
    (hcc : fitsTomlInt c.cache_capacity = true) :
    (Config.save_to c).bind Config.load_from = Except.ok c := by
  obtain ⟨p, ro, tmp, uc, fl, cc⟩ := c
  cases fl with
  | none =>
    cases cc with
    | none => rfl
    | some m =>
      simp only [fitsTomlInt, decide_eq_true_eq] at hcc
      unfold Config.save_to
      rw [tomlSerOptNat_some _ m hcc]
      rfl
  | some n =>
    simp only [fitsTomlInt, decide_eq_true_eq] at hf
    cases cc with
    | none =>
      unfold Config.save_to
      rw [tomlSerOptNat_some _ n hf]
      rfl
    | some m =>
      simp only [fitsTomlInt, decide_eq_true_eq] at hcc
      unfold Config.save_to
      rw [tomlSerOptNat_some _ n hf, tomlSerOptNat_some _ m hcc]
      rfl

/-- C9 witness: the bounded round trip at a concrete Config with
flush_every_ms = Some 1000 and cache_capacity = None. -/
theorem C9_config_roundtrip_witness :
    fitsTomlInt (some 1000) = true
    ∧ (Config.save_to ⟨"/tmp/rust-kv", true, false, false, some 1000, none⟩).bind
        Config.load_from
      = Except.ok ⟨"/tmp/rust-kv", true, false, false, some 1000, none⟩ :=
  ⟨rfl,
   C9_config_roundtrip ⟨"/tmp/rust-kv", true, false, false, some 1000, none⟩
     rfl rfl⟩

/-- C10: each Config builder method changes only the correspondingly named
field (wrapped in Some for flush_every_ms and cache_capacity) and leaves the
other five fields, including path, equal to those of the receiver. -/
theorem C10_config_builders (c : Config) (rb uc tmp : Bool) (ms cap : Nat) :
    ((c.read_only' rb).path = c.path
      ∧ (c.read_only' rb).read_only = rb
      ∧ (c.read_only' rb).temporary = c.temporary
      ∧ (c.read_only' rb).use_compression = c.use_compression
      ∧ (c.read_only' rb).flush_every_ms = c.flush_every_ms
      ∧ (c.read_only' rb).cache_capacity = c.cache_capacity)
    ∧ ((c.use_compression' uc).path = c.path
      ∧ (c.use_compression' uc).read_only = c.read_only
      ∧ (c.use_compression' uc).temporary = c.temporary
      ∧ (c.use_compression' uc).use_compression = uc
      ∧ (c.use_compression' uc).flush_every_ms = c.flush_every_ms
      ∧ (c.use_compression' uc).cache_capacity = c.cache_capacity)
    ∧ ((c.temporary' tmp).path = c.path
      ∧ (c.temporary' tmp).read_only = c.read_only
      ∧ (c.temporary' tmp).temporary = tmp
      ∧ (c.temporary' tmp).use_compression = c.use_compression
      ∧ (c.temporary' tmp).flush_every_ms = c.flush_every_ms
      ∧ (c.temporary' tmp).cache_capacity = c.cache_capacity)
    ∧ ((c.flush_every_ms' ms).path = c.path
      ∧ (c.flush_every_ms' ms).read_only = c.read_only
      ∧ (c.flush_every_ms' ms).temporary = c.temporary
      ∧ (c.flush_every_ms' ms).use_compression = c.use_compression
      ∧ (c.flush_every_ms' ms).flush_every_ms = some ms
      ∧ (c.flush_every_ms' ms).cache_capacity = c.cache_capacity)
    ∧ ((c.cache_capacity' cap).path = c.path
      ∧ (c.cache_capacity' cap).read_only = c.read_only
      ∧ (c.cache_capacity' cap).temporary = c.temporary
      ∧ (c.cache_capacity' cap).use_compression = c.use_compression
      ∧ (c.cache_capacity' cap).flush_every_ms = c.flush_every_ms
      ∧ (c.cache_capacity' cap).cache_capacity = some cap) :=
  ⟨⟨rfl, rfl, rfl, rfl, rfl, rfl⟩,
   ⟨rfl, rfl, rfl, rfl, rfl, rfl⟩,
   ⟨rfl, rfl, rfl, rfl, rfl, rfl⟩,
   ⟨rfl, rfl, rfl, rfl, rfl, rfl⟩,
   ⟨rfl, rfl, rfl, rfl, rfl, rfl⟩⟩

theorem bucketSet_fst {α β : Type} (K : Codec α) (V : Codec β) (ns : Bytes)
    (s : Store) (k : α) (v : β) :
    (bucketSet K V ns s k v).1 =
      (match storeGet s (subKey K ns k) with
       | none => Except.ok none
       | some bv => (V.dec bv).map some) := rfl

theorem bucketRemove_fst {α β : Type} (K : Codec α) (V : Codec β) (ns : Bytes)
    (s : Store) (k : α) :
    (bucketRemove K V ns s k).1 =
      (match storeGet s (subKey K ns k) with
       | none => Except.ok none
       | some bv => (V.dec bv).map some) := rfl

/-- C3: get immediately after set(k, v) returns Some v, get immediately after
remove(k) returns None; concretely, for a Raw/Raw bucket, after
set(b"test", b"123"), get(b"test") = Some(b"123") and get(b"missing") = None
(absence is Ok(None), not an error). -/
theorem C3_get_after_set_remove :
    (∀ (α β : Type) (K : Codec α) (V : Codec β) (ns : Bytes) (s : Store) (k : α) (v : β),
      V.dec (V.enc v) = Except.ok v →
      bucketGet K V ns (bucketSet K V ns s k v).2 k = Except.ok (some v))
    ∧ (∀ (α β : Type) (K : Codec α) (V : Codec β) (ns : Bytes) (s : Store) (k : α),
      bucketGet K V ns (bucketRemove K V ns s k).2 k = Except.ok none)
    ∧ bucketGet Raw Raw []
        (bucketSet Raw Raw [] [] [116, 101, 115, 116] [49, 50, 51]).2
        [116, 101, 115, 116] = Except.ok (some [49, 50, 51])
    ∧ bucketGet Raw Raw []
        (bucketSet Raw Raw [] [] [116, 101, 115, 116] [49, 50, 51]).2
        [109, 105, 115, 115, 105, 110, 103] = Except.ok none := by
  refine ⟨?_, ?_, rfl, rfl⟩
  · intro α β K V ns s k v hrt
    show (match storeGet (storeInsert (subKey K ns k) (V.enc v) s) (subKey K ns k) with
      | none => Except.ok none
      | some bv => (V.dec bv).map some) = Except.ok (some v)
    rw [storeGet_storeInsert_self]
    show (V.dec (V.enc v)).map some = Except.ok (some v)
    rw [hrt]
    rfl
  · intro α β K V ns s k
    show (match storeGet (storeRemove (subKey K ns k) s) (subKey K ns k) with
      | none => Except.ok none
      | some bv => (V.dec bv).map some) = Except.ok none
    rw [storeGet_storeRemove_self]

/-- C3 witness: the Raw round-trip hypothesis and get-after-set /
get-after-remove at concrete inputs. -/
theorem C3_get_after_set_remove_witness :
    Raw.dec (Raw.enc [49, 50, 51]) = Except.ok [49, 50, 51]
    ∧ bucketGet Raw Raw []
        (bucketSet Raw Raw [] [] [116, 101, 115, 116] [49, 50, 51]).2
        [116, 101, 115, 116] = Except.ok (some [49, 50, 51])
    ∧ bucketGet Raw Raw [] (bucketRemove Raw Raw [] [([5], [6])] [5]).2 [5]
        = Except.ok none :=
  ⟨rfl,
   C3_get_after_set_remove.1 Bytes Bytes Raw Raw [] []
     [116, 101, 115, 116] [49, 50, 51] rfl,
   C3_get_after_set_remove.2.1 Bytes Bytes Raw Raw [] [([5], [6])] [5]⟩

/-- C4: a transaction either commits, making every one of its buffered writes
(across any number of bucket subspaces) visible atomically, or aborts,
leaving the store unchanged — for any number of injected engine conflicts. -/
theorem C4_txn_atomicity (n : Nat) (s : Store) (body : Store → BodyResult) :
    (∀ ops : List StoreOp, body s = BodyResult.committedBody ops →
      runTxn n s body = (applyOps s ops, TxResult.committedTx))
    ∧ (body s = BodyResult.abortedBody →
      runTxn n s body = (s, TxResult.abortedTx)) := by
  constructor
  · intro ops hb
    rw [runTxn_eq, runTxnOnce, hb]
  · intro hb
    rw [runTxn_eq, runTxnOnce, hb]

/-- C4 witness: a two-bucket transaction driven through two injected
conflicts commits both writes (both visible), and an aborting body leaves the
store unchanged. -/
theorem C4_txn_atomicity_witness :
    runTxn 2 [] txDemoCommit = (applyOps [] txDemoOps, TxResult.committedTx)
    ∧ runTxn 2 [] txDemoAbort = ([], TxResult.abortedTx)
    ∧ storeGet (applyOps [] txDemoOps) [0, 7] = some [1]
    ∧ storeGet (applyOps [] txDemoOps) [1, 8] = some [2] :=
  ⟨(C4_txn_atomicity 2 [] txDemoCommit).1 txDemoOps rfl,
   (C4_txn_atomicity 2 [] txDemoAbort).2 rfl,
   rfl, rfl⟩

/-- C5: applying a batch through Bucket::apply is all-or-nothing: with no
engine fault every operation is applied; with a fault at any position inside
the batch, the caller-visible store is unchanged. -/
theorem C5_batch_atomicity (s : Store) (ops : List StoreOp) :
    bucketApply s ops none = (applyOps s ops, Except.ok ())
    ∧ (∀ i : Nat, i < ops.length →
      bucketApply s ops (some i) = (s, Except.error KvError.EngineError)) := by
  constructor
  · unfold bucketApply
    rw [applyBatchGo_none]
  · intro i hi
    unfold bucketApply
    rw [applyBatchGo_fault ops s i hi]

/-- C5 witness: a two-operation batch fully applied without a fault, and left
invisible when the engine faults at the second operation. -/
theorem C5_batch_atomicity_witness :
    bucketApply [] [StoreOp.setOp [3] [4], StoreOp.setOp [5] [6]] none
      = (applyOps [] [StoreOp.setOp [3] [4], StoreOp.setOp [5] [6]], Except.ok ())
    ∧ bucketApply [] [StoreOp.setOp [3] [4], StoreOp.setOp [5] [6]] (some 1)
      = ([], Except.error KvError.EngineError) :=
  ⟨(C5_batch_atomicity [] [StoreOp.setOp [3] [4], StoreOp.setOp [5] [6]]).1,
   (C5_batch_atomicity [] [StoreOp.setOp [3] [4], StoreOp.setOp [5] [6]]).2 1
     (by decide)⟩

/-- C6: iter() yields the bucket's items ascending by byte-lexicographic
order of encoded keys: every store operation preserves the sorted-by-key
invariant, iteration of a sorted store is sorted, and a bucket filled with
Integer keys 3, 1, 2 iterates as 1, 2, 3. -/
theorem C6_iter_ordering :
    (∀ (k v : Bytes) (s : Store), storeSorted s → storeSorted (storeInsert k v s))
    ∧ (∀ (k : Bytes) (s : Store), storeSorted s → storeSorted (storeRemove k s))
    ∧ (∀ (ns : Bytes) (s : Store), storeSorted s → storeSorted (bucketIter ns s))
    ∧ (bucketIter [] c6Store).map (fun p => fromBeBytes p.1) = [1, 2, 3] := by
  refine ⟨?_, ?_, ?_, rfl⟩
  · intro k v s hs; exact storeInsert_sorted hs
  · intro k s hs; exact storeRemove_sorted hs
  · intro ns s hs
    exact List.Pairwise.sublist (List.filter_sublist s) hs

/-- C6 witness: the sortedness preservation facts at concrete stores and the
concrete 3, 1, 2 iteration order. -/
theorem C6_iter_ordering_witness :
    storeSorted (storeInsert [2] [9] [])
    ∧ storeSorted (storeRemove [1] [([1], [9])])
    ∧ storeSorted (bucketIter [] [([1], [9])])
    ∧ (bucketIter [] c6Store).map (fun p => fromBeBytes p.1) = [1, 2, 3] :=
  ⟨C6_iter_ordering.1 [2] [9] [] (by simp [storeSorted]),
   C6_iter_ordering.2.1 [1] [([1], [9])] (by simp [storeSorted]),
   C6_iter_ordering.2.2.1 [] [([1], [9])] (by simp [storeSorted]),
   C6_iter_ordering.2.2.2⟩

/-- C7: set returns Ok(Some(prior)) exactly when a (decodable) value was
stored under the key before the call and Ok(None) exactly when the key was
absent; remove likewise returns the previously stored value exactly when one
existed. -/
theorem C7_set_remove_prior :
    (∀ (α β : Type) (K : Codec α) (V : Codec β) (ns : Bytes) (s : Store) (k : α) (v : β),
      (storeGet s (subKey K ns k) = none →
        (bucketSet K V ns s k v).1 = Except.ok none)
      ∧ (∀ bv pv, storeGet s (subKey K ns k) = some bv →
          V.dec bv = Except.ok pv →
          (bucketSet K V ns s k v).1 = Except.ok (some pv))
      ∧ ((bucketSet K V ns s k v).1 = Except.ok none →
        storeGet s (subKey K ns k) = none))
    ∧ (∀ (α β : Type) (K : Codec α) (V : Codec β) (ns : Bytes) (s : Store) (k : α),
      (storeGet s (subKey K ns k) = none →
        (bucketRemove K V ns s k).1 = Except.ok none)
      ∧ (∀ bv pv, storeGet s (subKey K ns k) = some bv →
          V.dec bv = Except.ok pv →
          (bucketRemove K V ns s k).1 = Except.ok (some pv))
      ∧ ((bucketRemove K V ns s k).1 = Except.ok none →
        storeGet s (subKey K ns k) = none)) := by
  constructor
  · intro α β K V ns s k v
    refine ⟨?_, ?_, ?_⟩
    · intro h
      rw [bucketSet_fst, h]
    · intro bv pv hs hd
      rw [bucketSet_fst, hs]
      show (V.dec bv).map some = Except.ok (some pv)
      rw [hd]
      rfl
    · intro h
      rw [bucketSet_fst] at h
      cases hsg : storeGet s (subKey K ns k) with
      | none => rfl
      | some bv =>
        rw [hsg] at h
        have h' : Except.map some (V.dec bv) = Except.ok none := h
        cases hd : V.dec bv with
        | ok pv => rw [hd] at h'; simp [Except.map] at h'
        | error e => rw [hd] at h'; simp [Except.map] at h'
  · intro α β K V ns s k
    refine ⟨?_, ?_, ?_⟩
    · intro h
      rw [bucketRemove_fst, h]
    · intro bv pv hs hd
      rw [bucketRemove_fst, hs]
      show (V.dec bv).map some = Except.ok (some pv)
      rw [hd]
      rfl
    · intro h
      rw [bucketRemove_fst] at h
      cases hsg : storeGet s (subKey K ns k) with
      | none => rfl
      | some bv =>
        rw [hsg] at h
        have h' : Except.map some (V.dec bv) = Except.ok none := h
        cases hd : V.dec bv with
        | ok pv => rw [hd] at h'; simp [Except.map] at h'
        | error e => rw [hd] at h'; simp [Except.map] at h'

/-- C7 witness: prior-value reporting of set and remove at concrete stores
with and without an existing binding. -/
theorem C7_set_remove_prior_witness :
    (bucketSet Raw Raw [] [] [1] [2]).1 = Except.ok none
    ∧ (bucketSet Raw Raw [] [([1], [3])] [1] [2]).1 = Except.ok (some [3])
    ∧ (bucketRemove Raw Raw [] [([1], [3])] [1]).1 = Except.ok (some [3])
    ∧ (bucketRemove Raw Raw [] [] [1]).1 = Except.ok none :=
  ⟨(C7_set_remove_prior.1 Bytes Bytes Raw Raw [] [] [1] [2]).1 rfl,
   (C7_set_remove_prior.1 Bytes Bytes Raw Raw [] [([1], [3])] [1] [2]).2.1
     [3] [3] rfl rfl,
   (C7_set_remove_prior.2 Bytes Bytes Raw Raw [] [([1], [3])] [1]).2.1
     [3] [3] rfl rfl,
   (C7_set_remove_prior.2 Bytes Bytes Raw Raw [] [] [1]).1 rfl⟩

/-- C8: bytes stored in a bucket that are not valid for Json decode to an Err
carrying DecodeError (a reported, recoverable error), and the read leaves the
stored bytes unchanged (a Raw read of the same key still returns them). -/
theorem C8_decode_failure_isolation :
    (∀ bs : Bytes, jsonDecode bs = none →
      JsonCodec.dec bs = Except.error KvError.DecodeError)
    ∧ (∀ (ns : Bytes) (s : Store) (k bs : Bytes), jsonDecode bs = none →
      bucketGet Raw JsonCodec ns (bucketSet Raw Raw ns s k bs).2 k
        = Except.error KvError.DecodeError
      ∧ bucketGet Raw Raw ns (bucketSet Raw Raw ns s k bs).2 k
        = Except.ok (some bs)) := by
  constructor
  · intro bs h
    show (match jsonDecode bs with
      | some v => Except.ok v
      | none => Except.error KvError.DecodeError) = Except.error KvError.DecodeError
    rw [h]
  · intro ns s k bs h
    constructor
    · show (match storeGet (storeInsert (subKey Raw ns k) (Raw.enc bs) s)
          (subKey Raw ns k) with
        | none => Except.ok none
        | some bv => (JsonCodec.dec bv).map some) = Except.error KvError.DecodeError
      rw [storeGet_storeInsert_self]
      show (match jsonDecode bs with
        | some v => Except.ok v
        | none => Except.error KvError.DecodeError).map some
          = Except.error KvError.DecodeError
      rw [h]
      rfl
    · show (match storeGet (storeInsert (subKey Raw ns k) (Raw.enc bs) s)
          (subKey Raw ns k) with
        | none => Except.ok none
        | some bv => (Raw.dec bv).map some) = Except.ok (some bs)
      rw [storeGet_storeInsert_self]
      rfl

/-- C8 witness: the bytes of the ASCII string notjson are invalid for Json,
reading them back as Json reports DecodeError, and the stored bytes are
still readable unchanged through the Raw codec. -/
theorem C8_decode_failure_isolation_witness :
    jsonDecode [110, 111, 116, 106, 115, 111, 110] = none
    ∧ JsonCodec.dec [110, 111, 116, 106, 115, 111, 110]
      = Except.error KvError.DecodeError
    ∧ bucketGet Raw JsonCodec []
        (bucketSet Raw Raw [] [] [9] [110, 111, 116, 106, 115, 111, 110]).2 [9]
      = Except.error KvError.DecodeError
    ∧ bucketGet Raw Raw []
        (bucketSet Raw Raw [] [] [9] [110, 111, 116, 106, 115, 111, 110]).2 [9]
      = Except.ok (some [110, 111, 116, 106, 115, 111, 110]) :=
  ⟨rfl,
   C8_decode_failure_isolation.1 [110, 111, 116, 106, 115, 111, 110] rfl,
   (C8_decode_failure_isolation.2 [] [] [9]
     [110, 111, 116, 106, 115, 111, 110] rfl).1,
   (C8_decode_failure_isolation.2 [] [] [9]
     [110, 111, 116, 106, 115, 111, 110] rfl).2⟩
